import Mathlib

/-!
Shallow embedding of the todo-list data layer (`src/data-layer.js`):
the `Task` model, the `AppState` container (CRUD + derived statistics +
filters), the `StorageService` (save/load/checksum/error recovery over a
localStorage-like store) and the `ValidationService` sanitizers.

Modelling conventions:
* JS strings are Lean `String`s; the character-level text pipeline works on
  `List Char`.  The regex class `\s` is modelled by the common whitespace
  characters (space, tab, LF, CR, VT, FF); `String.prototype.trim` strips the
  same class from both ends.
* JS `number` fields are `Int` (task `order`) or `Nat` (counters, sizes).
  `Math.round(completed/total*100)` is modelled as exact rational
  round-half-up, `(200*c + t) / (2*t)` in natural division.
* Fallible paths (`try`/`catch`) are modelled by total functions returning
  the caught-and-converted result together with the diagnostic events the
  code dispatches (`storageError` / `storageQuotaExceeded` custom events,
  the checksum `console.warn`).
* The browser storage cell is a `StorageEnv`: availability flag, the
  behaviour of the next `localStorage.setItem` call, and the stored record
  (absent, unparseable JSON, or a parsed envelope with optional fields).
-/

namespace DataLayer

/-! ## Character / string utilities (JS text built-ins) -/

/-- Whitespace class used by `trim()` and the regex `\s`. -/
def isWS (c : Char) : Bool :=
  c = ' ' || c = '\t' || c = '\n' || c = '\r' || c = '\x0b' || c = '\x0c'

/-- Kernel of `replace(/\s+/g, ' ')`: the flag records whether the previous
character was whitespace (so each maximal whitespace run produces one `' '`). -/
def collapseAux : Bool → List Char → List Char
  | _, [] => []
  | prevWS, c :: cs =>
    if isWS c then
      if prevWS then collapseAux true cs else ' ' :: collapseAux true cs
    else c :: collapseAux false cs

/-- `replace(/\s+/g, ' ')`: collapse every maximal whitespace run to one space. -/
def collapseWS (l : List Char) : List Char := collapseAux false l

/-- Drop trailing whitespace characters. -/
def dropTrailWS (l : List Char) : List Char := (l.reverse.dropWhile isWS).reverse

/-- `String.prototype.trim` on the character list. -/
def trimWS (l : List Char) : List Char := dropTrailWS (l.dropWhile isWS)

/-- `trim()` on strings. -/
def jsTrim (s : String) : String := ⟨trimWS s.toList⟩

/-- `substring(0, n)` (all our strings are BMP, so code units = chars). -/
def jsTruncate (n : Nat) (s : String) : String := ⟨s.toList.take n⟩

/-! ## Data model -/

/-- A JS field value that is either a string or some other (numeric) value;
used where the code distinguishes `typeof x === 'string'` and truthiness. -/
inductive JSVal
  | vStr (s : String)
  | vNum (n : Int)
  deriving DecidableEq

/-- JS truthiness of a `JSVal` (`""` and `0` are falsy). -/
def JSVal.truthy : JSVal → Bool
  | .vStr s => s ≠ ""
  | .vNum n => n ≠ 0

/-- The `Task` model (`class Task`): eight data fields. -/
structure Task where
  id : String
  text : String
  completed : Bool
  priority : String
  category : String
  createdAt : String
  updatedAt : String
  order : Int
  deriving DecidableEq

/-- Plain-object form of a task, as produced by `Task.prototype.toJSON`. -/
structure TaskJSON where
  id : String
  text : String
  completed : Bool
  priority : String
  category : String
  createdAt : String
  updatedAt : String
  order : Int
  deriving DecidableEq

/-- `Task.prototype.toJSON`: copy the eight fields into a plain record. -/
def Task.toJSON (t : Task) : TaskJSON :=
  ⟨t.id, t.text, t.completed, t.priority, t.category, t.createdAt, t.updatedAt, t.order⟩

/-- `Task.fromJSON`: `new Task({text: data.text})` followed by
`Object.assign(task, data)`; since the plain record carries all eight fields,
every constructor-assigned field (fresh id, timestamps, defaults) is
overwritten by the corresponding field of `data`. -/
def Task.fromJSON (d : TaskJSON) : Task :=
  ⟨d.id, d.text, d.completed, d.priority, d.category, d.createdAt, d.updatedAt, d.order⟩

/-- `Task.prototype.validate` (the `typeof` checks on `completed` and `order`
hold by typing; truthiness of a timestamp string is non-emptiness). -/
def Task.validate (t : Task) : Bool :=
  decide (0 < t.id.length) && decide (0 < (jsTrim t.text).length) &&
  (t.createdAt ≠ "") && (t.updatedAt ≠ "")

/-- Whitelisted update payload for `Task.prototype.update`; `none` means the
key is absent from the `updates` object (unknown keys are ignored by the
whitelist loop and are not modelled). -/
structure TaskUpdates where
  text : Option String := none
  completed : Option Bool := none
  priority : Option String := none
  category : Option String := none
  order : Option Int := none
  deriving DecidableEq

/-- `Task.prototype.update`: assign each present whitelisted key, then
refresh `updatedAt` with the current time `now`. -/
def Task.update (t : Task) (u : TaskUpdates) (now : String) : Task :=
  { t with
    text := u.text.getD t.text
    completed := u.completed.getD t.completed
    priority := u.priority.getD t.priority
    category := u.category.getD t.category
    order := u.order.getD t.order
    updatedAt := now }

/-- The derived `stats` record. -/
structure Stats where
  total : Nat
  completed : Nat
  pending : Nat
  completionRate : Nat
  deriving DecidableEq

/-- The `filters` record. -/
structure Filters where
  category : String
  priority : String
  status : String
  search : String
  deriving DecidableEq

/-- The `AppState` container. -/
structure AppState where
  tasks : List Task
  nextOrderId : Nat
  lastSync : Option String
  stats : Stats
  filters : Filters
  deriving DecidableEq

/-- The `AppState` constructor: empty collection, zero counter and stats,
`all`/empty filters. -/
def AppState.defaultState : AppState :=
  { tasks := []
    nextOrderId := 0
    lastSync := none
    stats := ⟨0, 0, 0, 0⟩
    filters := ⟨"all", "all", "all", ""⟩ }

/-- `Math.round((c / t) * 100)` for `0 ≤ c ≤ t`, `t > 0`, as exact
round-half-up of the rational `100*c/t`. -/
def roundPct (c t : Nat) : Nat := (200 * c + t) / (2 * t)

/-- `AppState.prototype.updateStats`: recompute the four derived counters
from the task collection. -/
def updateStats (s : AppState) : AppState :=
  let total := s.tasks.length
  let completed := (s.tasks.filter (fun t => t.completed)).length
  { s with stats :=
      { total := total
        completed := completed
        pending := total - completed
        completionRate := if 0 < total then roundPct completed total else 0 } }

/-- `AppState.prototype.addTask`: stamp `order := nextOrderId`, bump the
counter, append, recompute stats. -/
def addTask (s : AppState) (t : Task) : AppState :=
  updateStats
    { s with
      tasks := s.tasks ++ [{ t with order := (s.nextOrderId : Int) }]
      nextOrderId := s.nextOrderId + 1 }

/-- Apply `Task.prototype.update` to the first task with the given id
(`Array.prototype.find` returns the first match, which is then mutated). -/
def updateFirst (tasks : List Task) (taskId : String) (u : TaskUpdates) (now : String) :
    List Task :=
  match tasks with
  | [] => []
  | t :: ts =>
    if t.id = taskId then t.update u now :: ts
    else t :: updateFirst ts taskId u now

/-- `AppState.prototype.updateTask`: find by id; on a hit update the task and
recompute stats, returning `true`; on a miss return `false` with the state
untouched. -/
def updateTask (s : AppState) (taskId : String) (u : TaskUpdates) (now : String) :
    Bool × AppState :=
  match s.tasks.find? (fun t => t.id = taskId) with
  | some _ => (true, updateStats { s with tasks := updateFirst s.tasks taskId u now })
  | none => (false, s)

/-- `splice(index, 1)` at the first task with the given id. -/
def removeFirst (tasks : List Task) (taskId : String) : List Task :=
  match tasks with
  | [] => []
  | t :: ts => if t.id = taskId then ts else t :: removeFirst ts taskId

/-- The `forEach` of `AppState.prototype.reorderTasks`: assign `order := index`
down the collection, starting at `i`. -/
def renumber (i : Nat) : List Task → List Task
  | [] => []
  | t :: ts => { t with order := (i : Int) } :: renumber (i + 1) ts

/-- `AppState.prototype.reorderTasks`: renumber `order` to `0..N-1` in array
order and reset `nextOrderId` to the collection length. -/
def reorderTasks (s : AppState) : AppState :=
  { s with tasks := renumber 0 s.tasks, nextOrderId := s.tasks.length }

/-- `AppState.prototype.removeTask`: on a hit splice the task out, renumber,
recompute stats and return `true`; on a miss return `false`. -/
def removeTask (s : AppState) (taskId : String) : Bool × AppState :=
  match s.tasks.find? (fun t => t.id = taskId) with
  | some _ =>
    (true, updateStats (reorderTasks { s with tasks := removeFirst s.tasks taskId }))
  | none => (false, s)

/-- `AppState.prototype.setTasks`: replace the collection by the deserialized
records and recompute stats. -/
def setTasks (s : AppState) (ts : List TaskJSON) : AppState :=
  updateStats { s with tasks := ts.map Task.fromJSON }

/-- Partial filter assignment for `AppState.prototype.setFilters`. -/
structure FilterPatch where
  category : Option String := none
  priority : Option String := none
  status : Option String := none
  search : Option String := none
  deriving DecidableEq

/-- `AppState.prototype.setFilters`: spread-merge the given keys over the
current filters. -/
def setFilters (s : AppState) (p : FilterPatch) : AppState :=
  { s with filters :=
      { category := p.category.getD s.filters.category
        priority := p.priority.getD s.filters.priority
        status := p.status.getD s.filters.status
        search := p.search.getD s.filters.search } }

/-! ## Serialization (`AppState.toJSON` / `AppState.fromJSON`) -/

/-- The `tasks` field of a parsed `state` payload: absent, present but not an
array (so that `.map` would throw), or an array of task records. -/
inductive TasksField
  | absent
  | notArray
  | arr (ts : List TaskJSON)
  deriving DecidableEq

/-- A (possibly partial) serialized `state` payload, as read back from
storage; `AppState.prototype.toJSON` always produces all fields. -/
structure StateJSON where
  tasks : TasksField
  nextOrderId : Option Nat
  lastSync : Option String
  filters : Option Filters
  deriving DecidableEq

/-- `AppState.prototype.toJSON`: tasks (serialized), counter, `lastSync`,
filters. (`stats` is intentionally not serialized.) -/
def AppState.toJSON (s : AppState) : StateJSON :=
  { tasks := .arr (s.tasks.map Task.toJSON)
    nextOrderId := some s.nextOrderId
    lastSync := s.lastSync
    filters := some s.filters }

/-- `x || null` on an optional string: the empty string is falsy. -/
def jsOrNull (o : Option String) : Option String :=
  match o with
  | some s => if s = "" then none else some s
  | none => none

/-- `AppState.prototype.fromJSON` applied to state `a`: replace `tasks` when
the field is truthy (`.map` throws on a truthy non-array, so the `catch`
returns `false` with nothing assigned), take `nextOrderId || 0`,
`lastSync || null`, `filters || this.filters`, recompute stats, return
`true`. -/
def AppState.fromJSON (a : AppState) (d : StateJSON) : Bool × AppState :=
  match d.tasks with
  | .notArray => (false, a)
  | .absent =>
    (true, updateStats
      { a with
        nextOrderId := d.nextOrderId.getD 0
        lastSync := jsOrNull d.lastSync
        filters := d.filters.getD a.filters })
  | .arr ts =>
    (true, updateStats
      { a with
        tasks := ts.map Task.fromJSON
        nextOrderId := d.nextOrderId.getD 0
        lastSync := jsOrNull d.lastSync
        filters := d.filters.getD a.filters })

/-! ## StorageService -/

/-- The persistence envelope as parsed back from the stored JSON text;
fields are optional because a stored record may be arbitrary JSON. -/
structure Envelope where
  version : Option String
  timestamp : Option String
  state : Option StateJSON
  checksum : Option Nat
  deriving DecidableEq

/-- The raw stored record: either text `JSON.parse` rejects, or a parsed
envelope. -/
inductive RawRecord
  | malformed
  | parsed (data : Envelope)
  deriving DecidableEq

/-- Behaviour of the next `localStorage.setItem` call on the storage cell. -/
inductive WriteOutcome
  | ok
  | quotaError
  | otherError
  deriving DecidableEq

/-- The browser storage cell seen by `StorageService`. -/
structure StorageEnv where
  available : Bool
  writeOutcome : WriteOutcome
  stored : Option RawRecord
  deriving DecidableEq

/-- Diagnostic events the service emits: the `storageError` custom event
(with the error message), the `storageQuotaExceeded` custom event, and the
checksum-mismatch `console.warn`. -/
inductive Diag
  | storageError (msg : String)
  | quotaExceeded
  | checksumWarning
  deriving DecidableEq

/-- A caught JS error: `name` and `message`. -/
structure JSError where
  name : String
  message : String
  deriving DecidableEq

/-- `StorageService.prototype.handleStorageError`: always dispatch
`storageError` with the message; additionally dispatch
`storageQuotaExceeded` when the error is a `QuotaExceededError`. -/
def handleStorageError (e : JSError) : List Diag :=
  .storageError e.message ::
    (if e.name = "QuotaExceededError" then [.quotaExceeded] else [])

/-- `this.dataVersion`. -/
def dataVersion : String := "1.0.0"

/-- `this.maxStorageSize` (5 MiB). -/
def maxStorageSize : Nat := 5 * 1024 * 1024

/-- Concrete encoding of a string for the checksum/size model. -/
def encodeString (s : String) : List Nat :=
  s.length :: s.toList.map Char.toNat

/-- Concrete encoding of an integer. -/
def encodeInt (n : Int) : List Nat :=
  [if n < 0 then 1 else 0, n.natAbs]

/-- Concrete encoding of a task record. -/
def encodeTaskJSON (t : TaskJSON) : List Nat :=
  encodeString t.id ++ encodeString t.text ++ [if t.completed then 1 else 0] ++
  encodeString t.priority ++ encodeString t.category ++
  encodeString t.createdAt ++ encodeString t.updatedAt ++ encodeInt t.order

/-- Concrete encoding of a serialized state payload (stands for the
canonical `JSON.stringify(state)` text). -/
def encodeStateJSON (d : StateJSON) : List Nat :=
  (match d.tasks with
   | .absent => [0]
   | .notArray => [1]
   | .arr ts => 2 :: ts.length :: (ts.map encodeTaskJSON).flatten) ++
  (match d.nextOrderId with | none => [0] | some n => [1, n]) ++
  (match d.lastSync with | none => [0] | some s => 1 :: encodeString s) ++
  (match d.filters with
   | none => [0]
   | some f => 1 :: (encodeString f.category ++ encodeString f.priority ++
       encodeString f.status ++ encodeString f.search))

/-- `StorageService.prototype.generateChecksum`: a deterministic digest of
the canonical serialization of the `state` payload (SHA-256 hex in the
code; any deterministic digest of the serialized payload models it). -/
def generateChecksum (d : StateJSON) : Nat :=
  (encodeStateJSON d).foldl (fun a n => (a * 131 + n + 1) % 1000000007) 5381

/-- Byte-size measure of the serialized envelope (`new Blob([serialized]).size`
over `JSON.stringify(data)`). -/
def serializedSize (data : Envelope) : Nat :=
  (match data.version with | none => 1 | some s => (encodeString s).length) +
  (match data.timestamp with | none => 1 | some s => (encodeString s).length) +
  (match data.state with | none => 1 | some st => (encodeStateJSON st).length) +
  (match data.checksum with | none => 1 | some _ => 1) + 8

/-- The envelope `saveState` builds for state `st` at time `now`. -/
def mkEnvelope (st : AppState) (now : String) : Envelope :=
  { version := some dataVersion
    timestamp := some now
    state := some st.toJSON
    checksum := some (generateChecksum st.toJSON) }

/-- Result of `StorageService.prototype.saveState`. -/
structure SaveResult where
  ok : Bool
  env : StorageEnv
  state : AppState
  diags : List Diag
  deriving DecidableEq

/-- `StorageService.prototype.saveState`: bail out (`false`) when storage is
unavailable; build the envelope (version, timestamp, serialized state,
checksum over the serialized state); throw-and-catch when the serialized
size exceeds the 5 MiB bound or the write raises; on success write the
record, stamp `state.lastSync`, return `true`.  Every failure is caught at
this boundary and converted into `false` plus `handleStorageError` events. -/
def saveState (env : StorageEnv) (st : AppState) (now : String) : SaveResult :=
  if env.available = false then
    { ok := false, env := env, state := st, diags := [] }
  else
    let data := mkEnvelope st now
    let size := serializedSize data
    if maxStorageSize < size then
      { ok := false, env := env, state := st
        diags := handleStorageError
          ⟨"Error", "Storage limit exceeded: size over maxStorageSize bytes"⟩ }
    else
      match env.writeOutcome with
      | .quotaError =>
        { ok := false, env := env, state := st
          diags := handleStorageError ⟨"QuotaExceededError", "QuotaExceededError"⟩ }
      | .otherError =>
        { ok := false, env := env, state := st
          diags := handleStorageError ⟨"Error", "setItem failed"⟩ }
      | .ok =>
        { ok := true
          env := { env with stored := some (.parsed data) }
          state := { st with lastSync := some now }
          diags := [] }

/-- `StorageService.prototype.validateStoredData`: the envelope is an object
with truthy `version`, truthy `timestamp`, truthy `state`, and
`Array.isArray(data.state.tasks)`. -/
def validateStoredData (data : Envelope) : Bool :=
  (match data.version with | some s => s ≠ "" | none => false) &&
  (match data.timestamp with | some s => s ≠ "" | none => false) &&
  (match data.state with
   | some st => (match st.tasks with | .arr _ => true | _ => false)
   | none => false)

/-- Result of `StorageService.prototype.loadState`. -/
structure LoadResult where
  state : AppState
  diags : List Diag
  deriving DecidableEq

/-- `StorageService.prototype.loadState`: default state when storage is
unavailable or no record exists; parse failure, structural-validation
failure and import failure are thrown, caught at this boundary, converted
to `handleStorageError` events and a fresh default state; a checksum
mismatch between the stored checksum and the digest recomputed over the
loaded `state` payload only logs a warning and loading proceeds. -/
def loadState (env : StorageEnv) : LoadResult :=
  if env.available = false then
    { state := AppState.defaultState, diags := [] }
  else
    match env.stored with
    | none => { state := AppState.defaultState, diags := [] }
    | some .malformed =>
      { state := AppState.defaultState
        diags := handleStorageError ⟨"SyntaxError", "Unexpected token in JSON"⟩ }
    | some (.parsed data) =>
      if validateStoredData data = false then
        { state := AppState.defaultState
          diags := handleStorageError ⟨"Error", "Invalid stored data structure"⟩ }
      else
        let calculated := (data.state.map generateChecksum)
        let warns : List Diag :=
          if data.checksum = calculated then [] else [.checksumWarning]
        match data.state with
        | none => { state := AppState.defaultState
                    diags := warns ++
                      handleStorageError ⟨"Error", "Failed to import state data"⟩ }
        | some st =>
          match AppState.defaultState.fromJSON st with
          | (true, s) => { state := s, diags := warns }
          | (false, _) =>
            { state := AppState.defaultState
              diags := warns ++
                handleStorageError ⟨"Error", "Failed to import state data"⟩ }

/-! ## ValidationService sanitizers -/

/-- A candidate record for `sanitizeTask`: each field may be absent;
`text` must be a string for `sanitizeText` to be applicable, while
`priority` and `category` may hold arbitrary values (only `sanitizeCategory`
inspects `typeof`). -/
structure Cand where
  text : Option String := none
  priority : Option JSVal := none
  category : Option JSVal := none
  deriving DecidableEq

/-- The character class removed by the markup defense (`/[<>]/g`). -/
def isAngle (c : Char) : Bool := c = '<' || c = '>'

/-- `ValidationService.prototype.sanitizeText`: trim, collapse internal
whitespace, strip angle brackets, truncate to 255 characters. -/
def sanitizeText (s : String) : String :=
  ⟨((collapseWS (trimWS s.toList)).filter (fun c => !isAngle c)).take 255⟩

/-- `ValidationService.prototype.sanitizePriority`: keep a valid enum value,
otherwise return the default `"medium"` (`includes` is false on any
non-string value). -/
def sanitizePriority (v : JSVal) : String :=
  match v with
  | .vStr p => if p = "low" || p = "medium" || p = "high" then p else "medium"
  | .vNum _ => "medium"

/-- `ValidationService.prototype.sanitizeCategory`: trim and truncate a
string to 50 characters; non-strings map to the default `"general"`. -/
def sanitizeCategory (v : JSVal) : String :=
  match v with
  | .vStr c => jsTruncate 50 (jsTrim c)
  | .vNum _ => "general"

/-- `ValidationService.prototype.sanitizeTask`: each field is sanitized only
when the incoming field is truthy; falsy or absent fields are omitted from
the result object. -/
def sanitizeTask (x : Cand) : Cand :=
  { text :=
      match x.text with
      | some t => if t ≠ "" then some (sanitizeText t) else none
      | none => none
    priority :=
      match x.priority with
      | some v => if v.truthy then some (.vStr (sanitizePriority v)) else none
      | none => none
    category :=
      match x.category with
      | some v => if v.truthy then some (.vStr (sanitizeCategory v)) else none
      | none => none }

/-! ## Operation sequences -/

/-- Structural operations of claim C1: `addTask` / `removeTask`. -/
inductive SOp
  | add (t : Task)
  | remove (taskId : String)

/-- Run one structural operation (the boolean result of `removeTask` is
dropped; the state component is what survives). -/
def applySOp (s : AppState) : SOp → AppState
  | .add t => addTask s t
  | .remove taskId => (removeTask s taskId).2

/-- Run a sequence of structural operations from state `s`. -/
def applySOps (s : AppState) (ops : List SOp) : AppState :=
  ops.foldl applySOp s

/-- The public mutating operations of `AppState` (claim C2). -/
inductive MOp
  | add (t : Task)
  | update (taskId : String) (u : TaskUpdates) (now : String)
  | remove (taskId : String)
  | setAll (ts : List TaskJSON)
  | filtersOp (p : FilterPatch)
  | importState (d : StateJSON)

/-- Run one public mutating operation. -/
def applyMOp (s : AppState) : MOp → AppState
  | .add t => addTask s t
  | .update taskId u now => (updateTask s taskId u now).2
  | .remove taskId => (removeTask s taskId).2
  | .setAll ts => setTasks s ts
  | .filtersOp p => setFilters s p
  | .importState d => (s.fromJSON d).2

/-- Run a sequence of public mutating operations from state `s`. -/
def applyMOps (s : AppState) (ops : List MOp) : AppState :=
  ops.foldl applyMOp s

/-! ## Auxiliary definitions for the development -/

/-- Stats correctness: the four derived counters agree with the collection
(`completionRate` is round-half-up of `100 * completed / total`, and `0`
when the collection is empty). -/
def statsOk (s : AppState) : Prop :=
  s.stats.total = s.tasks.length ∧
  s.stats.completed = (s.tasks.filter (fun t => t.completed)).length ∧
  s.stats.pending = s.stats.total - s.stats.completed ∧
  s.stats.completionRate =
    if 0 < s.stats.total then roundPct s.stats.completed s.stats.total else 0

/-- A concrete one-task state used to instantiate hypotheses. -/
def sampleState : AppState :=
  { tasks := [⟨"a1", "Buy milk", false, "medium", "general",
      "2025-01-01T00:00:00.000Z", "2025-01-01T00:00:00.000Z", 0⟩]
    nextOrderId := 1
    lastSync := none
    stats := ⟨1, 0, 1, 0⟩
    filters := ⟨"all", "all", "all", ""⟩ }

/-- Three concrete stored tasks for the C6 scenario. -/
def tasksC6 : List TaskJSON :=
  [⟨"a1", "one", false, "medium", "general", "t0", "t0", 0⟩,
   ⟨"a2", "two", true, "high", "general", "t0", "t0", 1⟩,
   ⟨"a3", "three", false, "low", "work", "t0", "t0", 2⟩]

/-- A serialized state payload holding the three tasks. -/
def stateC6 : StateJSON :=
  { tasks := .arr tasksC6
    nextOrderId := some 3
    lastSync := none
    filters := some ⟨"all", "all", "all", ""⟩ }

/-- A structurally valid envelope whose stored checksum field alone was
corrupted (off by one from the true digest). -/
def dataC6 : Envelope :=
  { version := some "1.0.0"
    timestamp := some "2025-01-02T00:00:00.000Z"
    state := some stateC6
    checksum := some (generateChecksum stateC6 + 1) }

/-- List-level core of `sanitizeText`. -/
def sanitizeTextCore (l : List Char) : List Char :=
  ((collapseWS (trimWS l)).filter (fun c => !isAngle c)).take 255

/-- Whether a list starts with a non-whitespace character (or is empty). -/
def headNotWS : List Char → Bool
  | [] => true
  | c :: _ => !isWS c

/-- Whether a list ends with a non-whitespace character (or is empty). -/
def lastNotWS (l : List Char) : Bool := headNotWS l.reverse

/-- No two adjacent whitespace characters. -/
def noAdjWS : List Char → Bool
  | [] => true
  | [_] => true
  | a :: b :: rest => !(isWS a && isWS b) && noAdjWS (b :: rest)

/-- Every whitespace character is a plain space. -/
def allWSSpace (l : List Char) : Bool := l.all (fun c => !isWS c || c = ' ')

/-- Input-side condition under which the text pipeline is idempotent: the
text, when present and truthy, contains no angle brackets and its trimmed,
whitespace-collapsed form is nonempty and within the 255 length bound. -/
def textSanitizable (x : Cand) : Bool :=
  match x.text with
  | none => true
  | some t =>
    if t = "" then true
    else t.toList.all (fun c => !isAngle c)
      && decide (collapseWS (trimWS t.toList) ≠ [])
      && decide ((collapseWS (trimWS t.toList)).length ≤ 255)

/-- Input-side condition under which the category pipeline is idempotent:
the category, when a truthy string, has a nonempty trim within the 50
length bound. -/
def categorySanitizable (x : Cand) : Bool :=
  match x.category with
  | some (.vStr c) =>
    if c = "" then true
    else decide (trimWS c.toList ≠ []) && decide ((trimWS c.toList).length ≤ 50)
  | _ => true

/-- A concrete candidate with an invalid priority and an untrimmed
category. -/
def sampleCand : Cand :=
  { text := none
    priority := some (.vStr "urgent")
    category := some (.vStr "  office supplies  ") }

/-! ## C1: order invariant -/

/-- The order invariant: the `order` fields down the collection are exactly
`0, 1, ..., N-1` (in particular the set `{0..N-1}`, with no gaps and no
duplicates), and the counter equals the collection length. -/
def orderInv (s : AppState) : Prop :=
  s.tasks.map Task.order = (List.range s.tasks.length).map Int.ofNat ∧
  s.nextOrderId = s.tasks.length

theorem renumber_map_order (l : List Task) (i : Nat) :
    (renumber i l).map Task.order = (List.range' i l.length).map Int.ofNat := by
  induction l generalizing i with
  | nil => simp [renumber]
  | cons t ts ih => simp [renumber, List.range'_succ, ih]

theorem renumber_length (l : List Task) (i : Nat) :
    (renumber i l).length = l.length := by
  induction l generalizing i with
  | nil => rfl
  | cons t ts ih => simp [renumber, ih]

theorem updateStats_tasks (s : AppState) : (updateStats s).tasks = s.tasks := rfl

theorem updateStats_nextOrderId (s : AppState) :
    (updateStats s).nextOrderId = s.nextOrderId := rfl

theorem orderInv_addTask (s : AppState) (t : Task) (h : orderInv s) :
    orderInv (addTask s t) := by
  obtain ⟨h1, h2⟩ := h
  have ht : (addTask s t).tasks
      = s.tasks ++ [{ t with order := (s.nextOrderId : Int) }] := rfl
  have hn : (addTask s t).nextOrderId = s.nextOrderId + 1 := rfl
  constructor
  · rw [ht]
    simp only [List.map_append, List.length_append, List.map_cons, List.map_nil,
      List.length_cons, List.length_nil, h1, h2]
    rw [show s.tasks.length + (0 + 1) = s.tasks.length + 1 by omega, List.range_succ]
    simp
  · rw [ht, hn, h2]
    simp

theorem orderInv_removeTask (s : AppState) (taskId : String) (h : orderInv s) :
    orderInv (removeTask s taskId).2 := by
  unfold removeTask
  cases hf : s.tasks.find? (fun t => t.id = taskId) with
  | none => exact h
  | some t =>
    constructor
    · show (renumber 0 (removeFirst s.tasks taskId)).map Task.order
        = (List.range (renumber 0 (removeFirst s.tasks taskId)).length).map Int.ofNat
      rw [renumber_map_order, renumber_length, List.range_eq_range']
    · show (removeFirst s.tasks taskId).length
        = (renumber 0 (removeFirst s.tasks taskId)).length
      rw [renumber_length]

theorem orderInv_applySOps (s : AppState) (ops : List SOp) (h : orderInv s) :
    orderInv (applySOps s ops) := by
  induction ops generalizing s with
  | nil => exact h
  | cons op ops ih =>
    refine ih (applySOp s op) ?_
    cases op with
    | add t => exact orderInv_addTask s t h
    | remove taskId => exact orderInv_removeTask s taskId h

/-- C1: for every sequence of `addTask`/`removeTask` operations starting from
the empty default state, the surviving tasks' `order` fields are exactly the
sequence `0..N-1` (hence the set `{0,...,N-1}`, gap-free and
duplicate-free), and the counter `nextOrderId` equals the collection length
(in particular after every deletion-triggered renumbering).  Since every
prefix of a sequence is itself a sequence, this holds after each operation
completes. -/
theorem order_invariant (ops : List SOp) :
    (applySOps AppState.defaultState ops).tasks.map Task.order
      = (List.range (applySOps AppState.defaultState ops).tasks.length).map Int.ofNat
    ∧ (applySOps AppState.defaultState ops).nextOrderId
      = (applySOps AppState.defaultState ops).tasks.length :=
  orderInv_applySOps AppState.defaultState ops ⟨rfl, rfl⟩

/-! ## C2: stats correctness -/

theorem statsOk_updateStats (s : AppState) : statsOk (updateStats s) := by
  refine ⟨rfl, rfl, rfl, rfl⟩

theorem statsOk_applyMOp (s : AppState) (op : MOp) (h : statsOk s) :
    statsOk (applyMOp s op) := by
  cases op with
  | add t => exact statsOk_updateStats _
  | update taskId u now =>
    show statsOk (updateTask s taskId u now).2
    unfold updateTask
    cases hf : s.tasks.find? (fun t => t.id = taskId) with
    | none => exact h
    | some t => exact statsOk_updateStats _
  | remove taskId =>
    show statsOk (removeTask s taskId).2
    unfold removeTask
    cases hf : s.tasks.find? (fun t => t.id = taskId) with
    | none => exact h
    | some t => exact statsOk_updateStats _
  | setAll ts => exact statsOk_updateStats _
  | filtersOp p => exact h
  | importState d =>
    show statsOk (s.fromJSON d).2
    unfold AppState.fromJSON
    cases d.tasks with
    | notArray => exact h
    | absent => exact statsOk_updateStats _
    | arr ts => exact statsOk_updateStats _

/-- C2: every state reachable from the default state through the public
mutating operations (`addTask`, `updateTask`, `removeTask`, `setTasks`,
`setFilters`, `fromJSON`) has `stats.total` equal to the number of tasks,
`stats.completed` equal to the number of completed tasks, `stats.pending`
equal to their difference, and `stats.completionRate` equal to
round-half-up of `100 * completed / total` when `total > 0` and `0`
otherwise. -/
theorem stats_invariant (ops : List MOp) :
    statsOk (applyMOps AppState.defaultState ops) := by
  suffices h : ∀ s, statsOk s → statsOk (applyMOps s ops) from
    h AppState.defaultState ⟨rfl, rfl, rfl, rfl⟩
  induction ops with
  | nil => exact fun s h => h
  | cons op ops ih => exact fun s h => ih (applyMOp s op) (statsOk_applyMOp s op h)

/-! ## C9: updateTask on a missing id -/

/-- C9: for every state and every task id not present in the collection,
`updateTask` returns `false` (and, being a total function, raises no
exception) and leaves the state — in particular the task collection and the
stats record — exactly unchanged. -/
theorem updateTask_missing_id (s : AppState) (taskId : String) (u : TaskUpdates)
    (now : String) (h : ∀ t ∈ s.tasks, t.id ≠ taskId) :
    updateTask s taskId u now = (false, s) := by
  unfold updateTask
  have hf : s.tasks.find? (fun t => t.id = taskId) = none := by
    rw [List.find?_eq_none]
    intro t ht
    simp [h t ht]
  rw [hf]

theorem updateTask_missing_id_witness :
    updateTask sampleState "nonexistent-id" { text := some "x" } "t1"
      = (false, sampleState) :=
  updateTask_missing_id sampleState "nonexistent-id" { text := some "x" } "t1"
    (by decide)

/-! ## C3: serialization round-trip -/

/-- C3: deserializing the serialization of any valid state (every task
passing `Task.validate`) reproduces the task collection with all fields
identical (ids, timestamps, `order` included), identical filters, and an
identical `nextOrderId` counter; the import also reports success. -/
theorem serialize_roundtrip (s : AppState)
    (_hvalid : ∀ t ∈ s.tasks, t.validate = true) :
    (AppState.defaultState.fromJSON s.toJSON).1 = true
    ∧ (AppState.defaultState.fromJSON s.toJSON).2.tasks = s.tasks
    ∧ (AppState.defaultState.fromJSON s.toJSON).2.filters = s.filters
    ∧ (AppState.defaultState.fromJSON s.toJSON).2.nextOrderId = s.nextOrderId := by
  refine ⟨rfl, ?_, rfl, rfl⟩
  show (s.tasks.map Task.toJSON).map Task.fromJSON = s.tasks
  rw [List.map_map]
  have hid : (Task.fromJSON ∘ Task.toJSON) = id := funext fun t => rfl
  rw [hid, List.map_id]

theorem serialize_roundtrip_witness :
    (AppState.defaultState.fromJSON sampleState.toJSON).2.tasks = sampleState.tasks :=
  (serialize_roundtrip sampleState (by decide)).2.1

/-! ## C4: saveState failure and success behaviour -/

/-- C4: `saveState` (a total function, so no exception escapes its boundary)
returns `false` whenever storage is unavailable, whenever the serialized
envelope exceeds the fixed 5 MiB bound, and whenever the underlying write
raises a quota or other error; whenever it returns `true` it has stamped
`state.lastSync`. -/
theorem saveState_spec (env : StorageEnv) (st : AppState) (now : String) :
    (env.available = false → saveState env st now = ⟨false, env, st, []⟩)
    ∧ (env.available = true →
        maxStorageSize < serializedSize (mkEnvelope st now) →
        (saveState env st now).ok = false)
    ∧ (env.available = true →
        serializedSize (mkEnvelope st now) ≤ maxStorageSize →
        env.writeOutcome ≠ .ok → (saveState env st now).ok = false)
    ∧ ((saveState env st now).ok = true →
        (saveState env st now).state.lastSync = some now) := by
  refine ⟨?_, ?_, ?_, ?_⟩
  · intro hA
    simp [saveState, hA]
  · intro hA hSize
    simp [saveState, hA, hSize]
  · intro hA hSize hW
    have hlt : ¬ maxStorageSize < serializedSize (mkEnvelope st now) :=
      Nat.not_lt.mpr hSize
    cases hwo : env.writeOutcome with
    | ok => exact absurd hwo hW
    | quotaError => simp [saveState, hA, hlt, hwo]
    | otherError => simp [saveState, hA, hlt, hwo]
  · intro hOk
    cases hA : env.available with
    | false => simp [saveState, hA] at hOk
    | true =>
      by_cases hs : maxStorageSize < serializedSize (mkEnvelope st now)
      · simp [saveState, hA, hs] at hOk
      · cases hwo : env.writeOutcome with
        | ok => simp [saveState, hA, hs, hwo]
        | quotaError => simp [saveState, hA, hs, hwo] at hOk
        | otherError => simp [saveState, hA, hs, hwo] at hOk

theorem saveState_spec_witness :
    saveState ⟨false, .ok, none⟩ AppState.defaultState "t"
      = ⟨false, ⟨false, .ok, none⟩, AppState.defaultState, []⟩ :=
  (saveState_spec ⟨false, .ok, none⟩ AppState.defaultState "t").1 rfl

/-! ## C5: loadState absence and structural corruption -/

/-- C5: `loadState` (a total function — every parse/validation/import throw
is caught at its boundary) returns a fresh default state with no diagnostic
when no record is stored, and when the stored record fails the structural
validation of the envelope it falls back to a fresh default state and emits
the corruption diagnostic (the `storageError` event carrying the message of
the caught structural-validation error) instead of returning the corrupt
data. -/
theorem loadState_spec (env : StorageEnv) (hA : env.available = true) :
    (env.stored = none → loadState env = ⟨AppState.defaultState, []⟩)
    ∧ (∀ data, env.stored = some (.parsed data) → validateStoredData data = false →
        loadState env
          = ⟨AppState.defaultState,
              [.storageError "Invalid stored data structure"]⟩) := by
  constructor
  · intro hS
    simp [loadState, hA, hS]
  · intro data hS hV
    simp [loadState, hA, hS, hV, handleStorageError]

theorem loadState_spec_witness :
    loadState ⟨true, .ok, none⟩ = ⟨AppState.defaultState, []⟩ :=
  (loadState_spec ⟨true, .ok, none⟩ rfl).1 rfl

/-! ## C6: checksum mismatch is a soft warning -/

/-- C6: loading a structurally valid envelope whose stored checksum differs
from the checksum recomputed over the loaded `state` payload still
succeeds: the returned state carries the stored task data, and the only
diagnostic is the non-fatal integrity warning (no failure event is
emitted). -/
theorem checksum_mismatch_soft (env : StorageEnv) (data : Envelope)
    (st : StateJSON) (ts : List TaskJSON)
    (hA : env.available = true)
    (hS : env.stored = some (.parsed data))
    (hV : validateStoredData data = true)
    (hst : data.state = some st)
    (hts : st.tasks = .arr ts)
    (hcs : data.checksum ≠ some (generateChecksum st)) :
    loadState env = ⟨(AppState.defaultState.fromJSON st).2, [.checksumWarning]⟩
    ∧ (AppState.defaultState.fromJSON st).2.tasks = ts.map Task.fromJSON := by
  have hfj : AppState.defaultState.fromJSON st
      = (true, updateStats
          { AppState.defaultState with
            tasks := ts.map Task.fromJSON
            nextOrderId := st.nextOrderId.getD 0
            lastSync := jsOrNull st.lastSync
            filters := st.filters.getD AppState.defaultState.filters }) := by
    unfold AppState.fromJSON
    rw [hts]
  constructor
  · unfold loadState
    rw [hA, hS]
    simp only [Bool.true_eq_false, if_false, hV]
    rw [hst]
    rw [if_neg (by simpa using hcs)]
    simp only [hfj]
  · rw [hfj]
    rfl

set_option maxRecDepth 100000 in
theorem checksum_mismatch_soft_witness :
    loadState ⟨true, .ok, some (.parsed dataC6)⟩
      = ⟨(AppState.defaultState.fromJSON stateC6).2, [.checksumWarning]⟩
    ∧ (AppState.defaultState.fromJSON stateC6).2.tasks
      = tasksC6.map Task.fromJSON :=
  checksum_mismatch_soft ⟨true, .ok, some (.parsed dataC6)⟩ dataC6 stateC6 tasksC6
    rfl rfl (by decide) rfl rfl (by decide)

/-! ## C10: a successful save writes a checksum-consistent envelope -/

/-- C10: whenever `saveState` returns `true`, the written envelope's stored
checksum is exactly the digest of the stored `state` payload (the checksum
is computed over the same serialization that is stored, and the `lastSync`
stamp happens only after the write, on the in-memory state), so an
immediately following `loadState` of the written record never emits the
checksum-mismatch warning. -/
theorem save_load_consistent (env : StorageEnv) (st : AppState) (now : String)
    (hOk : (saveState env st now).ok = true) :
    (∀ data, (saveState env st now).env.stored = some (.parsed data) →
        data.checksum = some (generateChecksum st.toJSON)
        ∧ data.state = some st.toJSON)
    ∧ Diag.checksumWarning ∉ (loadState (saveState env st now).env).diags := by
  have hA : env.available = true := by
    cases hA : env.available with
    | false => simp [saveState, hA] at hOk
    | true => rfl
  have hsize : ¬ maxStorageSize < serializedSize (mkEnvelope st now) := by
    intro hlt
    simp [saveState, hA, hlt] at hOk
  have hwo : env.writeOutcome = .ok := by
    cases hw : env.writeOutcome with
    | ok => rfl
    | quotaError => simp [saveState, hA, hsize, hw] at hOk
    | otherError => simp [saveState, hA, hsize, hw] at hOk
  have hsave : saveState env st now =
      { ok := true
        env := { env with stored := some (.parsed (mkEnvelope st now)) }
        state := { st with lastSync := some now }
        diags := [] } := by
    simp [saveState, hA, hsize, hwo]
  rw [hsave]
  constructor
  · intro data hdata
    simp only [Option.some.injEq, RawRecord.parsed.injEq] at hdata
    rw [← hdata]
    exact ⟨rfl, rfl⟩
  · by_cases hV : validateStoredData (mkEnvelope st now) = true
    · have hld : (loadState
          { env with stored := some (.parsed (mkEnvelope st now)) }).diags = [] := by
        unfold loadState
        rw [hA]
        simp only [Bool.true_eq_false, if_false, hV]
        simp [mkEnvelope, AppState.fromJSON, AppState.toJSON]
      rw [hld]
      exact List.not_mem_nil _
    · have hV' : validateStoredData (mkEnvelope st now) = false := by
        cases h : validateStoredData (mkEnvelope st now) with
        | false => rfl
        | true => exact absurd h hV
      have hld : loadState { env with stored := some (.parsed (mkEnvelope st now)) }
          = ⟨AppState.defaultState,
              [.storageError "Invalid stored data structure"]⟩ := by
        simp [loadState, hA, hV', handleStorageError]
      rw [hld]
      simp

theorem save_load_consistent_witness :
    Diag.checksumWarning ∉
      (loadState (saveState ⟨true, .ok, none⟩ AppState.defaultState
        "2025-01-01T00:00:00.000Z").env).diags :=
  (save_load_consistent ⟨true, .ok, none⟩ AppState.defaultState
    "2025-01-01T00:00:00.000Z" (by decide)).2

/-! ## C7/C8: sanitizer properties -/

theorem headNotWS_dropWhile (l : List Char) :
    headNotWS (l.dropWhile isWS) = true := by
  induction l with
  | nil => rfl
  | cons c cs ih =>
    rw [List.dropWhile_cons]
    by_cases h : isWS c = true
    · rw [if_pos h]; exact ih
    · rw [if_neg h]
      simp only [headNotWS]
      simp [Bool.not_eq_true] at h
      simp [h]

theorem headNotWS_prefixOf {l₁ l₂ : List Char} (hp : l₁ <+: l₂)
    (h : headNotWS l₂ = true) : headNotWS l₁ = true := by
  cases l₁ with
  | nil => rfl
  | cons c cs =>
    obtain ⟨t, ht⟩ := hp
    cases l₂ with
    | nil => simp at ht
    | cons d ds =>
      have hc : c = d := by
        have := congrArg (fun l => l.head?) ht
        simpa using this
      subst hc
      exact h

theorem dropTrailWS_prefixOf (l : List Char) : dropTrailWS l <+: l := by
  unfold dropTrailWS
  have h1 : l.reverse.dropWhile isWS <:+ l.reverse := List.dropWhile_suffix isWS
  have h2 : (l.reverse.dropWhile isWS).reverse <+: l.reverse.reverse :=
    List.reverse_prefix.mpr h1
  rwa [List.reverse_reverse] at h2

theorem lastNotWS_dropTrailWS (l : List Char) :
    lastNotWS (dropTrailWS l) = true := by
  unfold lastNotWS dropTrailWS
  rw [List.reverse_reverse]
  exact headNotWS_dropWhile l.reverse

theorem headNotWS_trimWS (l : List Char) : headNotWS (trimWS l) = true :=
  headNotWS_prefixOf (dropTrailWS_prefixOf (l.dropWhile isWS)) (headNotWS_dropWhile l)

theorem lastNotWS_trimWS (l : List Char) : lastNotWS (trimWS l) = true :=
  lastNotWS_dropTrailWS (l.dropWhile isWS)

theorem mem_trimWS {c : Char} {l : List Char} (h : c ∈ trimWS l) : c ∈ l := by
  have h1 : c ∈ l.dropWhile isWS :=
    (dropTrailWS_prefixOf (l.dropWhile isWS)).subset h
  exact (List.dropWhile_suffix isWS).subset h1

theorem dropWhile_eq_self_of_headNotWS {l : List Char}
    (h : headNotWS l = true) : l.dropWhile isWS = l := by
  cases l with
  | nil => rfl
  | cons c cs =>
    have hc : isWS c = false := by simpa [headNotWS] using h
    simp [List.dropWhile_cons, hc]

theorem trimWS_eq_self {l : List Char} (h1 : headNotWS l = true)
    (h2 : lastNotWS l = true) : trimWS l = l := by
  unfold trimWS
  rw [dropWhile_eq_self_of_headNotWS h1]
  unfold dropTrailWS
  rw [dropWhile_eq_self_of_headNotWS h2, List.reverse_reverse]

theorem mem_collapseAux {c : Char} {b : Bool} {l : List Char}
    (h : c ∈ collapseAux b l) : c = ' ' ∨ c ∈ l := by
  induction l generalizing b with
  | nil => simp [collapseAux] at h
  | cons d ds ih =>
    by_cases hd : isWS d = true
    · cases b with
      | true =>
        rw [show collapseAux true (d :: ds) = collapseAux true ds from by
          simp [collapseAux, hd]] at h
        rcases ih h with h' | h'
        · exact Or.inl h'
        · exact Or.inr (List.mem_cons_of_mem d h')
      | false =>
        rw [show collapseAux false (d :: ds) = ' ' :: collapseAux true ds from by
          simp [collapseAux, hd]] at h
        rcases List.mem_cons.mp h with h' | h'
        · exact Or.inl h'
        · rcases ih h' with h'' | h''
          · exact Or.inl h''
          · exact Or.inr (List.mem_cons_of_mem d h'')
    · rw [show collapseAux b (d :: ds) = d :: collapseAux false ds from by
        simp [collapseAux, hd]] at h
      rcases List.mem_cons.mp h with h' | h'
      · exact Or.inr (h' ▸ List.mem_cons_self d ds)
      · rcases ih h' with h'' | h''
        · exact Or.inl h''
        · exact Or.inr (List.mem_cons_of_mem d h'')

theorem collapseAux_eq_nil {b : Bool} {l : List Char}
    (h : collapseAux b l = []) : ∀ c ∈ l, isWS c = true := by
  induction l generalizing b with
  | nil => intro c hc; cases hc
  | cons d ds ih =>
    intro c hc
    by_cases hd : isWS d = true
    · cases b with
      | true =>
        rw [show collapseAux true (d :: ds) = collapseAux true ds from by
          simp [collapseAux, hd]] at h
        rcases List.mem_cons.mp hc with h' | h'
        · exact h' ▸ hd
        · exact ih h c h'
      | false =>
        rw [show collapseAux false (d :: ds) = ' ' :: collapseAux true ds from by
          simp [collapseAux, hd]] at h
        cases h
    · rw [show collapseAux b (d :: ds) = d :: collapseAux false ds from by
        simp [collapseAux, hd]] at h
      cases h

theorem headNotWS_collapseAux_true (l : List Char) :
    headNotWS (collapseAux true l) = true := by
  induction l with
  | nil => rfl
  | cons c cs ih =>
    by_cases hc : isWS c = true
    · rw [show collapseAux true (c :: cs) = collapseAux true cs from by
        simp [collapseAux, hc]]
      exact ih
    · rw [show collapseAux true (c :: cs) = c :: collapseAux false cs from by
        simp [collapseAux, hc]]
      simp only [headNotWS]
      simp [Bool.not_eq_true] at hc
      simp [hc]

theorem headNotWS_collapseAux_false {l : List Char} (h : headNotWS l = true) :
    headNotWS (collapseAux false l) = true := by
  cases l with
  | nil => rfl
  | cons c cs =>
    have hc : isWS c = false := by simpa [headNotWS] using h
    rw [show collapseAux false (c :: cs) = c :: collapseAux false cs from by
      simp [collapseAux, hc]]
    simpa [headNotWS] using hc

theorem headNotWS_append (l₁ l₂ : List Char) (h : l₁ ≠ []) :
    headNotWS (l₁ ++ l₂) = headNotWS l₁ := by
  cases l₁ with
  | nil => exact absurd rfl h
  | cons c cs => rfl

theorem lastNotWS_cons (c : Char) (cs : List Char) (h : cs ≠ []) :
    lastNotWS (c :: cs) = lastNotWS cs := by
  unfold lastNotWS
  rw [List.reverse_cons, headNotWS_append]
  simpa using h

theorem lastNotWS_all_ws {l : List Char} (h : l ≠ [])
    (hws : ∀ c ∈ l, isWS c = true) : lastNotWS l = false := by
  cases hrev : l.reverse with
  | nil => exact absurd (List.reverse_eq_nil_iff.mp hrev) h
  | cons x xs =>
    have hx : x ∈ l := by
      have hx0 : x ∈ l.reverse := by rw [hrev]; exact List.mem_cons_self x xs
      exact List.mem_reverse.mp hx0
    unfold lastNotWS
    rw [hrev]
    simp [headNotWS, hws x hx]

theorem lastNotWS_collapseAux (b : Bool) {l : List Char}
    (h : lastNotWS l = true) : lastNotWS (collapseAux b l) = true := by
  induction l generalizing b with
  | nil => cases b <;> rfl
  | cons c cs ih =>
    cases hcs : cs with
    | nil =>
      subst hcs
      have hc : isWS c = false := by
        simpa [lastNotWS, headNotWS] using h
      rw [show collapseAux b [c] = c :: collapseAux false [] from by
        simp [collapseAux, hc]]
      simpa [lastNotWS, headNotWS, collapseAux] using hc
    | cons d ds =>
      subst hcs
      have htail : lastNotWS (d :: ds) = true := by
        rw [← lastNotWS_cons c (d :: ds) (by simp)]
        exact h
      by_cases hc : isWS c = true
      · cases b with
        | true =>
          rw [show collapseAux true (c :: d :: ds) = collapseAux true (d :: ds)
            from by simp [collapseAux, hc]]
          exact ih true htail
        | false =>
          have hrec := ih true htail
          have hne : collapseAux true (d :: ds) ≠ [] := by
            intro h0
            have hall := collapseAux_eq_nil h0
            have hbad := lastNotWS_all_ws (l := d :: ds) (by simp) hall
            rw [htail] at hbad
            cases hbad
          rw [show collapseAux false (c :: d :: ds)
              = ' ' :: collapseAux true (d :: ds) from by simp [collapseAux, hc]]
          rw [lastNotWS_cons _ _ hne]
          exact hrec
      · have hrec := ih false htail
        rw [show collapseAux b (c :: d :: ds) = c :: collapseAux false (d :: ds)
          from by simp [collapseAux, hc]]
        by_cases hne : collapseAux false (d :: ds) = []
        · rw [hne]
          simp [Bool.not_eq_true] at hc
          simp [lastNotWS, headNotWS, hc]
        · rw [lastNotWS_cons _ _ hne]
          exact hrec

theorem noAdjWS_collapseAux (b : Bool) (l : List Char) :
    noAdjWS (collapseAux b l) = true := by
  induction l generalizing b with
  | nil => cases b <;> rfl
  | cons c cs ih =>
    by_cases hc : isWS c = true
    · cases b with
      | true =>
        rw [show collapseAux true (c :: cs) = collapseAux true cs from by
          simp [collapseAux, hc]]
        exact ih true
      | false =>
        have hhead := headNotWS_collapseAux_true cs
        have hrec := ih true
        rw [show collapseAux false (c :: cs) = ' ' :: collapseAux true cs from by
          simp [collapseAux, hc]]
        cases hout : collapseAux true cs with
        | nil => rfl
        | cons d ds =>
          rw [hout] at hhead hrec
          have hd : isWS d = false := by simpa [headNotWS] using hhead
          simp [noAdjWS, hd, hrec]
    · have hrec := ih false
      rw [show collapseAux b (c :: cs) = c :: collapseAux false cs from by
        simp [collapseAux, hc]]
      cases hout : collapseAux false cs with
      | nil => rfl
      | cons d ds =>
        rw [hout] at hrec
        simp [Bool.not_eq_true] at hc
        simp [noAdjWS, hc, hrec]

theorem allWSSpace_collapseAux (b : Bool) (l : List Char) :
    allWSSpace (collapseAux b l) = true := by
  induction l generalizing b with
  | nil => cases b <;> rfl
  | cons c cs ih =>
    by_cases hc : isWS c = true
    · cases b with
      | true =>
        rw [show collapseAux true (c :: cs) = collapseAux true cs from by
          simp [collapseAux, hc]]
        exact ih true
      | false =>
        rw [show collapseAux false (c :: cs) = ' ' :: collapseAux true cs from by
          simp [collapseAux, hc]]
        have hrec := ih true
        simp only [allWSSpace, List.all_cons] at hrec ⊢
        simp [hrec]
    · rw [show collapseAux b (c :: cs) = c :: collapseAux false cs from by
        simp [collapseAux, hc]]
      have hrec := ih false
      simp only [allWSSpace, List.all_cons] at hrec ⊢
      simp [Bool.not_eq_true] at hc
      simp [hc, hrec]

theorem noAdjWS_tail {c : Char} {cs : List Char}
    (h : noAdjWS (c :: cs) = true) : noAdjWS cs = true := by
  cases cs with
  | nil => rfl
  | cons d ds =>
    simp only [noAdjWS, Bool.and_eq_true] at h
    exact h.2

theorem collapseAux_eq_self {l : List Char} (hadj : noAdjWS l = true)
    (hsp : allWSSpace l = true) : collapseAux false l = l := by
  induction l with
  | nil => rfl
  | cons c cs ih =>
    have hsp' : allWSSpace cs = true := by
      simp only [allWSSpace, List.all_cons, Bool.and_eq_true] at hsp
      exact hsp.2
    by_cases hc : isWS c = true
    · have hcsp : c = ' ' := by
        simp only [allWSSpace, List.all_cons, Bool.and_eq_true] at hsp
        have := hsp.1
        simp [hc] at this
        exact_mod_cast this
      rw [show collapseAux false (c :: cs) = ' ' :: collapseAux true cs from by
        simp [collapseAux, hc]]
      cases cs with
      | nil => simp [collapseAux, hcsp]
      | cons d ds =>
        have hd : isWS d = false := by
          simp only [noAdjWS, Bool.and_eq_true] at hadj
          have := hadj.1
          simp [hc] at this
          exact this
        have hih := ih (noAdjWS_tail hadj) hsp'
        rw [show collapseAux false (d :: ds) = d :: collapseAux false ds from by
          simp [collapseAux, hd]] at hih
        have hds : collapseAux false ds = ds := by
          injection hih
        rw [show collapseAux true (d :: ds) = d :: collapseAux false ds from by
          simp [collapseAux, hd]]
        rw [hds, hcsp]
    · rw [show collapseAux false (c :: cs) = c :: collapseAux false cs from by
        simp [collapseAux, hc]]
      rw [ih (noAdjWS_tail hadj) hsp']

theorem sanitizeText_as_core (s : String) :
    sanitizeText s = ⟨sanitizeTextCore s.toList⟩ := rfl

theorem string_mk_ne_empty {l : List Char} (h : l ≠ []) :
    (⟨l⟩ : String) ≠ "" := by
  intro h0
  apply h
  have := congrArg String.data h0
  simpa using this

theorem sanitizeTextCore_eq_collapse {l : List Char}
    (hang : ∀ c ∈ l, isAngle c = false)
    (hlen : (collapseWS (trimWS l)).length ≤ 255) :
    sanitizeTextCore l = collapseWS (trimWS l) := by
  unfold sanitizeTextCore
  have hfilter : (collapseWS (trimWS l)).filter (fun c => !isAngle c)
      = collapseWS (trimWS l) := by
    apply List.filter_eq_self.mpr
    intro c hc
    rcases mem_collapseAux hc with h' | h'
    · subst h'; rfl
    · simp [hang c (mem_trimWS h')]
  rw [hfilter]
  exact List.take_of_length_le hlen

theorem collapse_trim_fixed (l : List Char) :
    trimWS (collapseWS (trimWS l)) = collapseWS (trimWS l)
    ∧ collapseWS (collapseWS (trimWS l)) = collapseWS (trimWS l) := by
  constructor
  · exact trimWS_eq_self
      (headNotWS_collapseAux_false (headNotWS_trimWS l))
      (lastNotWS_collapseAux false (lastNotWS_trimWS l))
  · exact collapseAux_eq_self (noAdjWS_collapseAux false (trimWS l))
      (allWSSpace_collapseAux false (trimWS l))

theorem sanitizeTextCore_fixed {l : List Char}
    (hang : ∀ c ∈ l, isAngle c = false)
    (hlen : (collapseWS (trimWS l)).length ≤ 255) :
    sanitizeTextCore (collapseWS (trimWS l)) = collapseWS (trimWS l) := by
  have hang' : ∀ c ∈ collapseWS (trimWS l), isAngle c = false := by
    intro c hc
    rcases mem_collapseAux hc with h' | h'
    · subst h'; rfl
    · exact hang c (mem_trimWS h')
  unfold sanitizeTextCore
  rw [(collapse_trim_fixed l).1, (collapse_trim_fixed l).2]
  have hfilter : (collapseWS (trimWS l)).filter (fun c => !isAngle c)
      = collapseWS (trimWS l) := by
    apply List.filter_eq_self.mpr
    intro c hc
    simp [hang' c hc]
  rw [hfilter]
  exact List.take_of_length_le hlen

theorem sanitizePriority_mem (v : JSVal) :
    sanitizePriority v = "low" ∨ sanitizePriority v = "medium"
    ∨ sanitizePriority v = "high" := by
  cases v with
  | vNum n => exact Or.inr (Or.inl rfl)
  | vStr p =>
    unfold sanitizePriority
    by_cases h1 : p = "low"
    · simp [h1]
    · by_cases h2 : p = "medium"
      · simp [h2]
      · by_cases h3 : p = "high"
        · simp [h3]
        · simp [h1, h2, h3]

theorem sanitizePriority_fix (v : JSVal) :
    sanitizePriority (.vStr (sanitizePriority v)) = sanitizePriority v := by
  rcases sanitizePriority_mem v with h | h | h <;> rw [h] <;> decide

theorem sanitizePriority_ne_empty (v : JSVal) : sanitizePriority v ≠ "" := by
  rcases sanitizePriority_mem v with h | h | h <;> rw [h] <;> decide

theorem trimWS_idem (l : List Char) : trimWS (trimWS l) = trimWS l :=
  trimWS_eq_self (headNotWS_trimWS l) (lastNotWS_trimWS l)

/-- C7 counterexample: `sanitizeTask` is not idempotent.  On the record
`{text: "< a"}` one application yields `{text: " a"}` (removing the angle
bracket exposes a leading space that the earlier `trim` could not see), and
a second application yields `{text: "a"}`. -/
theorem sanitizeTask_not_idempotent :
    sanitizeTask (sanitizeTask { text := some "< a" })
      ≠ sanitizeTask { text := some "< a" } := by decide

/-- C7 amended: `sanitizeTask` is idempotent on every candidate whose text,
when present and truthy, contains no angle brackets and trims/collapses to a
nonempty string within the 255 bound, and whose category, when a truthy
string, trims to a nonempty string within the 50 bound (priority is
unconditional; non-string categories normalize to `"general"`, which is
itself a fixed point). -/
theorem sanitizeTask_idempotent_of_sanitizable (x : Cand)
    (ht : textSanitizable x = true) (hc : categorySanitizable x = true) :
    sanitizeTask (sanitizeTask x) = sanitizeTask x := by
  cases x with
  | mk xt xp xc =>
    unfold sanitizeTask
    simp only [Cand.mk.injEq]
    refine ⟨?_, ?_, ?_⟩
    · -- text component
      cases hxt : xt with
      | none => rfl
      | some t =>
        by_cases ht0 : t = ""
        · simp [ht0]
        · have hcond := ht
          rw [show textSanitizable ⟨xt, xp, xc⟩ = textSanitizable ⟨some t, xp, xc⟩
            from by rw [hxt]] at hcond
          unfold textSanitizable at hcond
          simp only [if_neg ht0, Bool.and_eq_true, List.all_eq_true,
            decide_eq_true_eq] at hcond
          obtain ⟨⟨hang, hne⟩, hlen⟩ := hcond
          have hang' : ∀ c ∈ t.toList, isAngle c = false := by
            intro c hcmem
            have := hang c hcmem
            simpa using this
          have hcore : sanitizeTextCore t.toList = collapseWS (trimWS t.toList) :=
            sanitizeTextCore_eq_collapse hang' hlen
          have hval : sanitizeText t = ⟨collapseWS (trimWS t.toList)⟩ := by
            rw [sanitizeText_as_core, hcore]
          simp only [if_pos ht0, hval]
          have hne' : (⟨collapseWS (trimWS t.toList)⟩ : String) ≠ "" :=
            string_mk_ne_empty hne
          rw [if_pos hne']
          have : sanitizeText ⟨collapseWS (trimWS t.toList)⟩
              = ⟨collapseWS (trimWS t.toList)⟩ := by
            rw [sanitizeText_as_core]
            show (⟨sanitizeTextCore (collapseWS (trimWS t.toList))⟩ : String) = _
            rw [sanitizeTextCore_fixed hang' hlen]
          rw [this]
    · -- priority component
      cases hxp : xp with
      | none => rfl
      | some v =>
        by_cases hvt : v.truthy = true
        · simp only [if_pos hvt]
          have htr : (JSVal.vStr (sanitizePriority v)).truthy = true := by
            simp [JSVal.truthy, sanitizePriority_ne_empty v]
          rw [if_pos htr, sanitizePriority_fix]
        · have : v.truthy = false := by
            cases h : v.truthy with
            | false => rfl
            | true => exact absurd h hvt
          simp [this]
    · -- category component
      cases hxc : xc with
      | none => rfl
      | some v =>
        cases v with
        | vNum n =>
          by_cases hn : n = 0
          · simp [hn, JSVal.truthy]
          · have htr : (JSVal.vNum n).truthy = true := by
              simp [JSVal.truthy, hn]
            simp only [if_pos htr]
            rw [show sanitizeCategory (.vNum n) = "general" from rfl]
            rw [if_pos (by decide)]
            rw [show sanitizeCategory (.vStr "general") = "general" from by decide]
        | vStr c =>
          by_cases hc0 : c = ""
          · simp [hc0, JSVal.truthy]
          · have hcond := hc
            rw [show categorySanitizable ⟨xt, xp, xc⟩
                = categorySanitizable ⟨xt, xp, some (.vStr c)⟩
              from by rw [hxc]] at hcond
            unfold categorySanitizable at hcond
            simp only [if_neg hc0, Bool.and_eq_true, decide_eq_true_eq] at hcond
            obtain ⟨hne, hlen⟩ := hcond
            have htr : (JSVal.vStr c).truthy = true := by
              simp [JSVal.truthy, hc0]
            simp only [if_pos htr]
            have hval : sanitizeCategory (.vStr c) = ⟨trimWS c.toList⟩ := by
              show jsTruncate 50 (jsTrim c) = _
              unfold jsTruncate jsTrim
              show (⟨(trimWS c.toList).take 50⟩ : String) = _
              rw [List.take_of_length_le hlen]
            rw [hval]
            have htr2 : (JSVal.vStr ⟨trimWS c.toList⟩).truthy = true := by
              simp [JSVal.truthy]
              exact string_mk_ne_empty hne
            rw [if_pos htr2]
            have : sanitizeCategory (.vStr ⟨trimWS c.toList⟩) = ⟨trimWS c.toList⟩ := by
              show jsTruncate 50 (jsTrim ⟨trimWS c.toList⟩) = _
              unfold jsTruncate jsTrim
              show (⟨(trimWS (trimWS c.toList)).take 50⟩ : String) = _
              rw [trimWS_idem, List.take_of_length_le hlen]
            rw [this]

theorem sanitizeTask_idempotent_witness :
    sanitizeTask (sanitizeTask
        { text := some "  Buy   milk  ", priority := some (.vStr "urgent")
          category := some (.vStr "  home  ") })
      = sanitizeTask
        { text := some "  Buy   milk  ", priority := some (.vStr "urgent")
          category := some (.vStr "  home  ") } :=
  sanitizeTask_idempotent_of_sanitizable
    { text := some "  Buy   milk  ", priority := some (.vStr "urgent")
      category := some (.vStr "  home  ") } (by decide) (by decide)

/-- C8 counterexample: when `priority` and `category` are absent,
`sanitizeTask` omits them from the result instead of substituting the
defaults `"medium"` / `"general"` — the sanitized record of the empty
candidate has no priority and no category field at all. -/
theorem sanitizeTask_no_default_for_absent :
    (sanitizeTask { text := none, priority := none, category := none }).priority
        ≠ some (.vStr "medium")
    ∧ (sanitizeTask { text := none, priority := none, category := none }).category
        ≠ some (.vStr "general") := by decide

/-- C8 amended: when `priority` is present and truthy, `sanitizeTask`
normalizes it to one of the three valid enum values — keeping a valid value
and substituting the default `"medium"` for any invalid one; when
`category` is present and truthy it is normalized to the trimmed,
50-character-bounded string (with `"general"` substituted for truthy
non-string values).  When either field is absent or falsy it is omitted
from the sanitized record rather than replaced by its default. -/
theorem sanitizeTask_priority_category_spec (x : Cand) :
    (∀ v, x.priority = some v → v.truthy = true →
        (sanitizeTask x).priority = some (.vStr (sanitizePriority v))
        ∧ (sanitizePriority v = "low" ∨ sanitizePriority v = "medium"
            ∨ sanitizePriority v = "high")
        ∧ (∀ p, v = JSVal.vStr p → p ≠ "low" → p ≠ "medium" → p ≠ "high" →
            sanitizePriority v = "medium")
        ∧ (∀ n, v = JSVal.vNum n → sanitizePriority v = "medium"))
    ∧ ((x.priority = none ∨ x.priority = some (.vStr "")
          ∨ x.priority = some (.vNum 0)) → (sanitizeTask x).priority = none)
    ∧ (∀ c, x.category = some (.vStr c) → c ≠ "" →
        (sanitizeTask x).category = some (.vStr (jsTruncate 50 (jsTrim c)))
        ∧ (jsTruncate 50 (jsTrim c)).length ≤ 50)
    ∧ (∀ n, x.category = some (.vNum n) → n ≠ 0 →
        (sanitizeTask x).category = some (.vStr "general"))
    ∧ ((x.category = none ∨ x.category = some (.vStr "")
          ∨ x.category = some (.vNum 0)) → (sanitizeTask x).category = none) := by
  obtain ⟨xt, xp, xc⟩ := x
  refine ⟨?_, ?_, ?_, ?_, ?_⟩
  · intro v hv htr
    dsimp only at hv
    subst hv
    refine ⟨?_, sanitizePriority_mem v, ?_, ?_⟩
    · simp [sanitizeTask, htr]
    · intro p hp h1 h2 h3
      subst hp
      simp [sanitizePriority, h1, h2, h3]
    · intro n hn
      subst hn
      rfl
  · intro hv
    dsimp only at hv
    rcases hv with h | h | h <;> subst h <;> simp [sanitizeTask, JSVal.truthy]
  · intro c hcv hc0
    dsimp only at hcv
    subst hcv
    constructor
    · simp [sanitizeTask, JSVal.truthy, hc0, sanitizeCategory]
    · show ((trimWS c.toList).take 50).length ≤ 50
      rw [List.length_take]
      exact min_le_left 50 _
  · intro n hcv hn0
    dsimp only at hcv
    subst hcv
    simp [sanitizeTask, JSVal.truthy, hn0, sanitizeCategory]
  · intro hv
    dsimp only at hv
    rcases hv with h | h | h <;> subst h <;> simp [sanitizeTask, JSVal.truthy]

theorem sanitizeTask_priority_category_witness :
    (sanitizeTask sampleCand).priority = some (.vStr "medium")
    ∧ (sanitizeTask sampleCand).category = some (.vStr "office supplies") := by
  constructor
  · rw [((sanitizeTask_priority_category_spec sampleCand).1
      (.vStr "urgent") rfl (by decide)).1]
    decide
  · rw [((sanitizeTask_priority_category_spec sampleCand).2.2.1
      "  office supplies  " rfl (by decide)).1]
    decide

end DataLayer
